import Mathlib

/-!
# Verification of the kcg-dataset-downloader core

Shallow embedding of the repository `kk-digital/kcg-dataset-downloader`
(Python).  Components modelled, each from its source file:

* `dataset_downloader/parquet_handler.py` — row selection and the
  rename-based file lifecycle (`find_incomplete_rows`, `mark_as_processing`).
* `dataset_downloader/app.py` — the per-row status-update loops of
  `process_parquet_file` and `resume`.
* `dataset_downloader/downloader.py` — `download_image_with_retry`.
* `dataset_downloader/storage.py` — batch-directory allocation
  (`_get_next_batch_number`, `_check_batch_size`, `save_image`).
* `dataset_downloader/utils.py` — `get_file_extension`.

Machine conventions: strings are modelled over ASCII character lists
(Python's Unicode-aware `str.isdigit` / `str.lower` agree with the ASCII
versions on the directory names and URLs the program manipulates); file
sizes are natural numbers of bytes; the float comparison
`total_size / 1024**3 >= batch_size_gb` in `_check_batch_size` is modelled
exactly as `total_size ≥ batch_size_gb * 2^30`, which agrees with the float
computation for any directory size below 2^53 bytes; `os.rename` and
`os.path` functions follow their POSIX (Linux) semantics, the platform the
program targets.
-/

namespace DatasetDownloader

/-! ## Rows and status columns (`parquet_handler.py`, `app.py`)

A parquet row after `ParquetHandler.read_parquet`: the `status` and
`error` columns exist (backfilled with `None` when absent).  Pandas `NaN`
/ `None` in `status` is the `unset` state; the code writes the strings
`'success'` and `'failed'`. -/

inductive Status where
  | unset   : Status
  | success : Status
  | failed  : Status
deriving DecidableEq, Repr

structure Row where
  url      : String
  status   : Status
  error    : Option String
  filepath : Option String
deriving DecidableEq, Repr

/-- `ParquetHandler.find_incomplete_rows`: `df[df['status'].isna()]`.
`isna` holds exactly for the backfilled/unset status. -/
def find_incomplete_rows (df : List Row) : List Row :=
  df.filter (fun r => r.status = Status.unset)

/-- Per-row outcome of the download-then-persist sequence in
`process_parquet_file` / `resume`: the fetch returned `(None, err)`; or the
fetch succeeded and `Storage.save_image` returned a path; or the fetch
succeeded and persisting raised an exception with message `e`. -/
inductive RowOutcome where
  | fetchFailed (err : String) : RowOutcome
  | saved (fp : String)        : RowOutcome
  | saveFailed (e : String)    : RowOutcome
deriving DecidableEq, Repr

/-- The row update applied by `DatasetDownloader.process_parquet_file`
(app.py lines 78–97).  On a persisted payload it sets
`df.loc[idx,'status']='success'` and `df.loc[idx,'error']=None`; the path
returned by `save_image` is bound to the local variable `filepath` only —
the `filepath` column of the row is not assigned. -/
def updateRowFile (r : Row) : RowOutcome → Row
  | RowOutcome.saved _fp    => { r with status := Status.success, error := none }
  | RowOutcome.saveFailed e => { r with status := Status.failed, error := some e }
  | RowOutcome.fetchFailed e => { r with status := Status.failed, error := some e }

/-- The row update applied by `DatasetDownloader.resume`
(app.py lines 181–201).  Identical to the `process_parquet_file` update
except that on a persisted payload it also sets
`df.loc[idx,'filepath'] = filepath`. -/
def updateRowResume (r : Row) : RowOutcome → Row
  | RowOutcome.saved fp     =>
      { r with status := Status.success, error := none, filepath := some fp }
  | RowOutcome.saveFailed e => { r with status := Status.failed, error := some e }
  | RowOutcome.fetchFailed e => { r with status := Status.failed, error := some e }

/-- The update loop `for idx, (img_stream, err) in results.items(): ...` of
`process_parquet_file`.  `results` is keyed by the indices of
`incomplete_df = find_incomplete_rows df`, i.e. exactly the row positions
whose status is unset, and `download_batch` produces one outcome per such
index; rows with a terminal status are not in `results` and are left
untouched.  `i` is the position of the head row inside the full frame. -/
def applyResultsFileGo (out : Nat → RowOutcome) (i : Nat) : List Row → List Row
  | [] => []
  | r :: rest =>
      (if r.status = Status.unset then updateRowFile r (out i) else r) ::
        applyResultsFileGo out (i + 1) rest

def applyResultsFile (df : List Row) (out : Nat → RowOutcome) : List Row :=
  applyResultsFileGo out 0 df

/-- The corresponding update loop of `resume`. -/
def applyResultsResumeGo (out : Nat → RowOutcome) (i : Nat) : List Row → List Row
  | [] => []
  | r :: rest =>
      (if r.status = Status.unset then updateRowResume r (out i) else r) ::
        applyResultsResumeGo out (i + 1) rest

def applyResultsResume (df : List Row) (out : Nat → RowOutcome) : List Row :=
  applyResultsResumeGo out 0 df

/-! ## Fetch engine (`downloader.py`)

`Downloader.download_image` returns a triple `(key, img_stream, err)`;
success is `img_stream is not None`, in which case `err is None`.  The key
is fixed throughout a retry sequence, so it is left implicit; an attempt is
a function from the attempt index to the `(stream, error)` pair. -/

structure DLResult where
  stream : Option Nat
  error  : Option String
deriving DecidableEq, Repr

/-- The loop body of `download_image_with_retry`:
`for _ in range(self.retries + 1): ... if img_stream is not None: return`,
then `return key, None, err`.  `start` is the index of the next attempt,
`remaining` the number of loop iterations left after the current one.
Returns the result together with the number of `download_image` calls
made. -/
def retryGo (att : Nat → DLResult) (start : Nat) : Nat → DLResult × Nat
  | 0 =>
      let r := att start
      if r.stream.isSome then (r, 1) else (⟨none, r.error⟩, 1)
  | remaining + 1 =>
      let r := att start
      if r.stream.isSome then (r, 1)
      else
        let p := retryGo att (start + 1) remaining
        (p.1, p.2 + 1)

/-- `Downloader.download_image_with_retry` for a non-negative retry count:
`range(retries + 1)` iterations of `download_image`. -/
def download_image_with_retry (att : Nat → DLResult) (retries : Nat) :
    DLResult × Nat :=
  retryGo att 0 retries

/-- Result of calling `download_image_with_retry` when `retries` is an
arbitrary Python `int`.  When `range(retries + 1)` is empty the loop body
never runs and the final `return key, None, err` reads the never-assigned
locals `key` and `err`, raising `NameError` (`UnboundLocalError`). -/
inductive PyRet where
  | ok (r : DLResult) (attempts : Nat) : PyRet
  | nameError : PyRet
deriving DecidableEq, Repr

/-- `Downloader.download_image_with_retry` with `retries : Int` as
configured (`Config.retries` is a plain `int`): `range(retries + 1)` makes
`max(retries + 1, 0)` iterations. -/
def download_image_with_retry_int (att : Nat → DLResult) (retries : Int) :
    PyRet :=
  match (retries + 1).toNat with
  | 0 => PyRet.nameError
  | n + 1 =>
      let p := retryGo att 0 n
      PyRet.ok p.1 p.2

/-- Concrete attempt sequence for the C6 witness: the first attempt fails,
all later ones succeed. -/
def attFixture : Nat → DLResult :=
  fun i => if i = 0 then ⟨none, some "timeout"⟩ else ⟨some 7, none⟩

/-! ## Batch storage (`storage.py`)

A `Storage` instance holds the current batch number and sees the output
tree through `fs : Nat → Nat`, the total size in bytes of the regular
files directly inside the batch directory rendered from each number
(`f"{n:06d}"`); an absent or empty directory has size `0`.  The threshold
`batch_size_gb` is in GB; `_check_batch_size` compares
`total_size / 1024**3 >= batch_size_gb`, i.e. `size ≥ thrGB * 2^30`. -/

/-- Decimal value of a digit string: Python `int(d)` for `d.isdigit()`
names. -/
def strToNat (s : String) : Nat :=
  s.data.foldl (fun a c => a * 10 + (c.toNat - 48)) 0

/-- Decimal digits of `n`, most significant first (`fuel ≥ 1` suffices for
`n < 10^fuel`). -/
def natDigits (fuel n : Nat) : List Char :=
  match fuel with
  | 0 => []
  | f + 1 =>
      if n < 10 then [Char.ofNat (48 + n)]
      else natDigits f (n / 10) ++ [Char.ofNat (48 + n % 10)]

/-- The directory name `f"{self.current_batch:06d}"` of `_get_batch_dir`:
decimal digits left-padded with `'0'` to at least width 6. -/
def render6 (n : Nat) : String :=
  let ds := natDigits (n + 1) n
  ⟨List.replicate (6 - ds.length) '0' ++ ds⟩

/-- One entry of `os.listdir(self.output_dir)`: its name, whether it is a
directory, and — when it is a batch directory — the total size in bytes of
the regular files directly inside it. -/
structure DirEntry where
  name  : String
  isDir : Bool
  size  : Nat
deriving DecidableEq, Repr

/-- Python `d.isdigit()` on the ASCII names at hand: nonempty and all
decimal digits. -/
def pyIsDigit (s : String) : Bool :=
  !s.data.isEmpty && s.data.all Char.isDigit

/-- `Storage._get_next_batch_number`:
`[int(d) for d in os.listdir(output_dir) if isdir(join(output_dir, d)) and
d.isdigit()]`, then `1` if empty else `max(existing) + 1`. -/
def get_next_batch_number (entries : List DirEntry) : Nat :=
  let existing := entries.filterMap
    (fun e => if e.isDir && pyIsDigit e.name then some (strToNat e.name) else none)
  if existing.isEmpty then 1 else existing.foldl max 0 + 1

/-- Claim-side reading ("the purely numeric immediate subdirectory names of
outputDir"): the decimal values of the names of the subdirectory entries
that consist solely of digits. -/
def numericSubdirValues (entries : List DirEntry) : List Nat :=
  (entries.filter
      (fun e => e.isDir && !e.name.data.isEmpty && e.name.data.all Char.isDigit)).map
    (fun e => strToNat e.name)

/-- Total size of the regular files directly inside the subdirectory
named `name` (the sum `_check_batch_size` computes for a batch
directory). -/
def dirSize (entries : List DirEntry) (name : String) : Nat :=
  (entries.filter (fun e => e.isDir && decide (e.name = name))).foldl
    (fun a e => a + e.size) 0

/-- Mutable state of a `Storage` instance plus its view of the output
tree: `current` is `self.current_batch`; `fs n` is the size in bytes of
batch directory `n` (the directory named `render6 n`). -/
structure StorageState where
  current : Nat
  fs      : Nat → Nat

/-- `Storage.__init__`: `current_batch = _get_next_batch_number()`, sizes
as found on disk. -/
def initStorage (entries : List DirEntry) : StorageState :=
  { current := get_next_batch_number entries
    fs := fun d => dirSize entries (render6 d) }

/-- `Storage._check_batch_size`: `total_size / 1024**3 >= batch_size_gb`
for the current batch directory, exactly `size ≥ thrGB * 2^30`. -/
def checkBatchSize (thrGB : Nat) (s : StorageState) : Bool :=
  decide (thrGB * 2 ^ 30 ≤ s.fs s.current)

/-- The directory number a call to `save_image` writes into: the current
batch, after the one possible rotation performed when the size check
fires. -/
def saveDir (thrGB : Nat) (s : StorageState) : Nat :=
  if checkBatchSize thrGB s then s.current + 1 else s.current

/-- `Storage.save_image`, state part: rotate if the current directory is
at or over threshold, then write `sz` bytes into the (possibly new)
current directory. -/
def saveImage (thrGB : Nat) (s : StorageState) (sz : Nat) : StorageState :=
  let dir := saveDir thrGB s
  { current := dir
    fs := fun d => if d = dir then s.fs d + sz else s.fs d }

/-- Events affecting the output tree during one run: a `save_image` call,
or an external removal of `amt` bytes of files from batch directory
`d` (the code itself never removes files). -/
inductive StorageOp where
  | save (sz : Nat)           : StorageOp
  | remove (d : Nat) (amt : Nat) : StorageOp
deriving DecidableEq, Repr

def stepOp (thrGB : Nat) (s : StorageState) : StorageOp → StorageState
  | StorageOp.save sz => saveImage thrGB s sz
  | StorageOp.remove d amt =>
      { s with fs := fun x => if x = d then s.fs x - amt else s.fs x }

/-- The directory numbers written by the successive `save_image` calls of
a run, in order. -/
def writtenDirs (thrGB : Nat) (s : StorageState) : List StorageOp → List Nat
  | [] => []
  | StorageOp.save sz :: rest =>
      saveDir thrGB s :: writtenDirs thrGB (stepOp thrGB s (StorageOp.save sz)) rest
  | StorageOp.remove d amt :: rest =>
      writtenDirs thrGB (stepOp thrGB s (StorageOp.remove d amt)) rest

/-- Closed-system invariant of a single run: every batch directory beyond
the current one is empty.  It holds at initialisation (the current batch
is one past the largest numeric directory) and no save touches a
directory beyond the new current. -/
def InvStore (s : StorageState) : Prop :=
  ∀ d, s.current < d → s.fs d = 0

/-! ## Extension heuristic (`utils.py`) and path building (`storage.py`)

URL and path strings are manipulated through their character lists.
`os.path` functions are the POSIX (`posixpath`) versions: the path
separator is `'/'`, the extension separator `'.'`. -/

/-- Index of the last occurrence of `c`, Python `str.rfind` as an
`Option`. -/
def lastIdx (c : Char) : List Char → Option Nat
  | [] => none
  | x :: rest =>
      match lastIdx c rest with
      | some i => some (i + 1)
      | none => if x = c then some 0 else none

/-- Python `str.rfind`: last index of `c`, `-1` when absent. -/
def rfind (l : List Char) (c : Char) : Int :=
  match lastIdx c l with
  | some i => (i : Int)
  | none => -1

/-- `url.split("?")[0]`: the characters before the first `'?'`. -/
def stripQuery (l : List Char) : List Char :=
  l.takeWhile (fun c => c != '?')

/-- The extension part of `posixpath.splitext(p)`: the suffix from the
last `'.'`, provided that dot lies after the last `'/'` and the base name
has at least one non-dot character before it (leading dots of the base
name do not start an extension). -/
def splitextExt (p : List Char) : List Char :=
  let sep := rfind p '/'
  let dot := rfind p '.'
  if sep < dot ∧
      ((List.range p.length).any
        (fun j => decide (sep < (j : Int) ∧ (j : Int) < dot) && (p.getD j '.' != '.')))
        = true then
    p.drop dot.toNat
  else []

/-- Python `str.lower` on the ASCII strings at hand. -/
def pyLower (l : List Char) : List Char :=
  l.map Char.toLower

/-- The allowed-extension list of `get_file_extension`. -/
def allowedExts : List String :=
  [".jpg", ".jpeg", ".png", ".gif", ".webp", ".bmp"]

/-- `utils.get_file_extension`: strip the query string, take the lowercased
`splitext` extension, default to `.jpg` when empty or not in the allowed
list. -/
def get_file_extension (url : String) : String :=
  let path := stripQuery url.data
  let ext : String := ⟨pyLower (splitextExt path)⟩
  if ext = "" ∨ ext ∉ allowedExts then ".jpg" else ext

/-- Claim-side description: the lowercased path extension of the URL with
its query string stripped. -/
def pathExtensionLower (url : String) : String :=
  ⟨pyLower (splitextExt (stripQuery url.data))⟩

/-- The key sanitisation of `save_image`:
`str(key).replace("/", "_").replace("\\", "_")`.  Both replaced patterns
are single characters and the replacement `'_'` is not itself replaced, so
the two sequential passes equal one character-wise map. -/
def safeKeyL (k : List Char) : List Char :=
  k.map (fun c => if c = '/' ∨ c = '\\' then '_' else c)

/-- `posixpath.join(a, b)` for a single extra component. -/
def posixJoin (a b : String) : String :=
  if b.data.head? = some '/' then b
  else if a = "" then b
  else if a.data.getLast? = some '/' then a ++ b
  else a ++ "/" ++ b

/-- The path built and returned by `Storage.save_image`:
`os.path.join(batch_dir, f"{safe_key}{extension}")`. -/
def save_image_path (batchDir key extension : String) : String :=
  posixJoin batchDir ⟨safeKeyL key.data ++ extension.data⟩

/-- Strip trailing `'/'` characters, Python `str.rstrip('/')`. -/
def rstripSlash (l : List Char) : List Char :=
  (l.reverse.dropWhile (fun c => c == '/')).reverse

/-- `posixpath.dirname(p)`: everything up to and including the last `'/'`,
with trailing slashes stripped unless the head is empty or all
slashes. -/
def dirnameP (p : String) : String :=
  let i := ((rfind p.data '/') + 1).toNat
  let head := p.data.take i
  if !head.isEmpty && !(head.all (fun c => c == '/')) then ⟨rstripSlash head⟩
  else ⟨head⟩

/-! ## File lifecycle renames (`parquet_handler.py`)

`mark_as_processing` computes
`parquet_file.replace(".parquet", "_processing.parquet")` and calls
`os.rename`.  On POSIX, `os.rename` raises `FileNotFoundError` when the
source does not exist and silently replaces an existing regular-file
target.  A directory is a list of files with their contents. -/

structure FsFile where
  path    : String
  content : Nat
deriving DecidableEq, Repr

inductive OsError where
  | fileNotFound : OsError
deriving DecidableEq, Repr

/-- POSIX `os.rename`: error if the source is missing, otherwise move the
source's content to the destination, silently replacing any existing
destination entry. -/
def renamePosix (fs : List FsFile) (src dst : String) :
    Except OsError (List FsFile) :=
  match fs.find? (fun f => f.path == src) with
  | none => Except.error OsError.fileNotFound
  | some f =>
      Except.ok (⟨dst, f.content⟩ ::
        fs.filter (fun g => g.path != src && g.path != dst))

/-- `startsWithL pat l`: `pat` is an initial segment of `l`. -/
def startsWithL : List Char → List Char → Bool
  | [], _ => true
  | _ :: _, [] => false
  | p :: ps, x :: xs => p == x && startsWithL ps xs

/-- Python `str.replace` for a nonempty pattern (the program only replaces
`".parquet"` and `"_processing.parquet"`): leftmost, non-overlapping, all
occurrences.  The fuel starts at the string length and each step consumes
at least one character. -/
def replaceGo (pat rep : List Char) : Nat → List Char → List Char
  | 0, s => s
  | _ + 1, [] => []
  | fuel + 1, c :: rest =>
      if 0 < pat.length ∧ startsWithL pat (c :: rest) = true then
        rep ++ replaceGo pat rep fuel (List.drop (pat.length - 1) rest)
      else c :: replaceGo pat rep fuel rest

def replaceAllL (pat rep s : List Char) : List Char :=
  replaceGo pat rep s.length s

/-- `parquet_file.replace(".parquet", "_processing.parquet")`. -/
def processingName (p : String) : String :=
  ⟨replaceAllL ".parquet".data "_processing.parquet".data p.data⟩

/-- `ParquetHandler.mark_as_processing`: rename the file to its
`_processing` form and return the new path. -/
def mark_as_processing (fs : List FsFile) (p : String) :
    Except OsError (List FsFile × String) :=
  match renamePosix fs p (processingName p) with
  | Except.error e => Except.error e
  | Except.ok fs' => Except.ok (fs', processingName p)

/-! ## Lemmas, claim theorems, witnesses and counterexamples -/

lemma applyResultsFileGo_get? (out : Nat → RowOutcome) (j : Nat) (df : List Row)
    (i : Nat) :
    (applyResultsFileGo out j df).get? i =
      (df.get? i).map
        (fun r => if r.status = Status.unset then updateRowFile r (out (j + i)) else r) := by
  induction df generalizing j i with
  | nil => simp [applyResultsFileGo]
  | cons a rest ih =>
      cases i with
      | zero => simp [applyResultsFileGo]
      | succ i =>
          have harith : j + 1 + i = j + (i + 1) := by omega
          have hi := ih (j + 1) i
          rw [harith] at hi
          simpa [applyResultsFileGo] using hi

lemma applyResultsResumeGo_get? (out : Nat → RowOutcome) (j : Nat) (df : List Row)
    (i : Nat) :
    (applyResultsResumeGo out j df).get? i =
      (df.get? i).map
        (fun r => if r.status = Status.unset then updateRowResume r (out (j + i)) else r) := by
  induction df generalizing j i with
  | nil => simp [applyResultsResumeGo]
  | cons a rest ih =>
      cases i with
      | zero => simp [applyResultsResumeGo]
      | succ i =>
          have harith : j + 1 + i = j + (i + 1) := by omega
          have hi := ih (j + 1) i
          rw [harith] at hi
          simpa [applyResultsResumeGo] using hi

lemma updateRowFile_status (r : Row) (o : RowOutcome) :
    (updateRowFile r o).status = Status.success ∨
      (updateRowFile r o).status = Status.failed := by
  cases o <;> simp [updateRowFile]

lemma updateRowResume_status (r : Row) (o : RowOutcome) :
    (updateRowResume r o).status = Status.success ∨
      (updateRowResume r o).status = Status.failed := by
  cases o <;> simp [updateRowResume]

/-- C1.  In the update loops of `process_parquet_file` and `resume`, a row
whose status is terminal (`success` or `failed`) at load time is returned
unchanged; a row may differ from its input only if its status was `unset`
(exactly the rows selected by `find_incomplete_rows`), and every such row
ends with status `success` or `failed` — never `unset` again, and never a
terminal-to-terminal move. -/
theorem status_transitions_one_way (df : List Row) (out : Nat → RowOutcome)
    (i : Nat) (r : Row) (h : df.get? i = some r) :
    ∃ r' r'', (applyResultsFile df out).get? i = some r' ∧
      (applyResultsResume df out).get? i = some r'' ∧
      (r.status ≠ Status.unset → r' = r ∧ r'' = r) ∧
      (r.status = Status.unset →
        (r'.status = Status.success ∨ r'.status = Status.failed) ∧
        (r''.status = Status.success ∨ r''.status = Status.failed)) ∧
      (r ∈ find_incomplete_rows df ↔ r ∈ df ∧ r.status = Status.unset) := by
  refine ⟨if r.status = Status.unset then updateRowFile r (out i) else r,
    if r.status = Status.unset then updateRowResume r (out i) else r, ?_, ?_, ?_, ?_, ?_⟩
  · rw [applyResultsFile, applyResultsFileGo_get? out 0 df i, h]
    simp
  · rw [applyResultsResume, applyResultsResumeGo_get? out 0 df i, h]
    simp
  · intro hne
    simp [hne]
  · intro hu
    simp only [hu, if_pos]
    exact ⟨updateRowFile_status r (out i), updateRowResume_status r (out i)⟩
  · simp [find_incomplete_rows, List.mem_filter]

/-- Witness for C1 at a concrete one-row table whose row is already
terminal. -/
theorem status_transitions_one_way_witness :
    ∃ r' r'',
      (applyResultsFile [⟨"http://e/a.jpg", Status.success, none, none⟩]
          (fun _ => RowOutcome.saved "/out/000001/0.jpg")).get? 0 = some r' ∧
      (applyResultsResume [⟨"http://e/a.jpg", Status.success, none, none⟩]
          (fun _ => RowOutcome.saved "/out/000001/0.jpg")).get? 0 = some r'' ∧
      ((⟨"http://e/a.jpg", Status.success, none, none⟩ : Row).status ≠ Status.unset →
        r' = ⟨"http://e/a.jpg", Status.success, none, none⟩ ∧
        r'' = ⟨"http://e/a.jpg", Status.success, none, none⟩) ∧
      ((⟨"http://e/a.jpg", Status.success, none, none⟩ : Row).status = Status.unset →
        (r'.status = Status.success ∨ r'.status = Status.failed) ∧
        (r''.status = Status.success ∨ r''.status = Status.failed)) ∧
      ((⟨"http://e/a.jpg", Status.success, none, none⟩ : Row) ∈
          find_incomplete_rows [⟨"http://e/a.jpg", Status.success, none, none⟩] ↔
        (⟨"http://e/a.jpg", Status.success, none, none⟩ : Row) ∈
          [⟨"http://e/a.jpg", Status.success, none, none⟩] ∧
        (⟨"http://e/a.jpg", Status.success, none, none⟩ : Row).status = Status.unset) :=
  status_transitions_one_way _ _ 0 _ rfl

/-- C3.  On a row whose fetch succeeded and whose payload was persisted
without error, the `process_parquet_file` loop sets `status = success` and
clears `error` but leaves the `filepath` column untouched (the path
returned by `save_image` is only bound to a local variable), whereas the
`resume` loop does set `filepath` to the returned path. -/
theorem processfile_drops_filepath :
    applyResultsFile [⟨"http://e/x.jpg", Status.unset, none, none⟩]
        (fun _ => RowOutcome.saved "/out/000001/0.jpg")
      = [⟨"http://e/x.jpg", Status.success, none, none⟩] ∧
    applyResultsResume [⟨"http://e/x.jpg", Status.unset, none, none⟩]
        (fun _ => RowOutcome.saved "/out/000001/0.jpg")
      = [⟨"http://e/x.jpg", Status.success, none, some "/out/000001/0.jpg"⟩] :=
  ⟨rfl, rfl⟩

lemma retryGo_attempts_le (att : Nat → DLResult) (start remaining : Nat) :
    (retryGo att start remaining).2 ≤ remaining + 1 := by
  induction remaining generalizing start with
  | zero => by_cases h : (att start).stream.isSome <;> simp [retryGo, h]
  | succ n ih =>
      by_cases h : (att start).stream.isSome
      · simp [retryGo, h]
      · simp only [retryGo, h, if_neg, Bool.false_eq_true, ite_false]
        have := ih (start + 1)
        omega

lemma retryGo_success_iff (att : Nat → DLResult) (start remaining : Nat) :
    (retryGo att start remaining).1.stream.isSome = true ↔
      ∃ i, start ≤ i ∧ i ≤ start + remaining ∧ (att i).stream.isSome = true := by
  induction remaining generalizing start with
  | zero =>
      by_cases h : (att start).stream.isSome = true
      · have hres : (retryGo att start 0).1 = att start := by simp [retryGo, h]
        rw [hres]
        exact ⟨fun _ => ⟨start, le_refl _, Nat.le_add_right _ _, h⟩, fun _ => h⟩
      · have hres : (retryGo att start 0).1 = ⟨none, (att start).error⟩ := by
          simp [retryGo, h]
        rw [hres]
        constructor
        · intro hfalse
          exact absurd hfalse (by simp)
        · rintro ⟨i, h1, h2, h3⟩
          have hi : i = start := by omega
          subst hi
          exact absurd h3 h
  | succ n ih =>
      by_cases h : (att start).stream.isSome = true
      · have hres : (retryGo att start (n + 1)).1 = att start := by simp [retryGo, h]
        rw [hres]
        exact ⟨fun _ => ⟨start, le_refl _, by omega, h⟩, fun _ => h⟩
      · have hres : (retryGo att start (n + 1)).1 = (retryGo att (start + 1) n).1 := by
          simp [retryGo, h]
        rw [hres, ih (start + 1)]
        constructor
        · rintro ⟨i, h1, h2, h3⟩
          exact ⟨i, by omega, by omega, h3⟩
        · rintro ⟨i, h1, h2, h3⟩
          rcases Nat.eq_or_lt_of_le h1 with heq | hlt
          · subst heq
            exact absurd h3 h
          · exact ⟨i, by omega, by omega, h3⟩

lemma retryGo_first_success (att : Nat → DLResult) (start remaining N : Nat)
    (hN : N ≤ remaining) (hfail : ∀ i, start ≤ i → i < start + N → (att i).stream = none)
    (hsucc : (att (start + N)).stream.isSome) :
    retryGo att start remaining = (att (start + N), N + 1) := by
  induction N generalizing start remaining with
  | zero =>
      have hs : (att start).stream.isSome = true := by simpa using hsucc
      cases remaining with
      | zero => simp [retryGo, hs]
      | succ n => simp [retryGo, hs]
  | succ m ih =>
      have hfail0 : (att start).stream = none := hfail start (le_refl _) (by omega)
      cases remaining with
      | zero => omega
      | succ n =>
          have hrec := ih (start + 1) n (by omega)
            (fun i h1 h2 => hfail i (by omega) (by omega))
            (by have : start + 1 + m = start + (m + 1) := by omega
                rw [this]; exact hsucc)
          simp only [retryGo, hfail0, Option.isSome_none, Bool.false_eq_true, ite_false]
          rw [hrec]
          have : start + 1 + m = start + (m + 1) := by omega
          rw [this]

lemma retryGo_all_fail (att : Nat → DLResult) (start remaining : Nat)
    (hfail : ∀ i, start ≤ i → i ≤ start + remaining → (att i).stream = none) :
    retryGo att start remaining =
      (⟨none, (att (start + remaining)).error⟩, remaining + 1) := by
  induction remaining generalizing start with
  | zero =>
      have h0 := hfail start (le_refl _) (by omega)
      simp [retryGo, h0]
  | succ n ih =>
      have h0 := hfail start (le_refl _) (by omega)
      have hrec := ih (start + 1) (fun i h1 h2 => hfail i (by omega) (by omega))
      simp only [retryGo, h0, Option.isSome_none, Bool.false_eq_true, ite_false]
      rw [hrec]
      have : start + 1 + n = start + (n + 1) := by omega
      rw [this]

/-- C6.  `download_image_with_retry` makes at most `retries + 1` calls to
`download_image`; it succeeds iff at least one of the `retries + 1`
attempts succeeds; it returns on the first successful attempt (if the
first `N` attempts fail and attempt `N` succeeds, with `N ≤ retries`,
exactly `N + 1` calls are made and the successful result is returned); and
if every attempt fails it returns the last attempt's failure after
`retries + 1` calls. -/
theorem download_retry_spec (att : Nat → DLResult) (retries : Nat) :
    (download_image_with_retry att retries).2 ≤ retries + 1 ∧
    ((download_image_with_retry att retries).1.stream.isSome = true ↔
      ∃ i, i ≤ retries ∧ (att i).stream.isSome = true) ∧
    (∀ N, N ≤ retries → (∀ i, i < N → (att i).stream = none) →
      (att N).stream.isSome = true →
      download_image_with_retry att retries = (att N, N + 1)) ∧
    ((∀ i, i ≤ retries → (att i).stream = none) →
      download_image_with_retry att retries =
        (⟨none, (att retries).error⟩, retries + 1)) := by
  refine ⟨retryGo_attempts_le att 0 retries, ?_, ?_, ?_⟩
  · rw [download_image_with_retry, retryGo_success_iff att 0 retries]
    constructor
    · rintro ⟨i, _, h2, h3⟩
      exact ⟨i, by omega, h3⟩
    · rintro ⟨i, h1, h3⟩
      exact ⟨i, by omega, by omega, h3⟩
  · intro N hN hfail hsucc
    have h := retryGo_first_success att 0 retries N hN
      (fun i _ h2 => hfail i (by omega)) (by simpa using hsucc)
    simpa using h
  · intro hall
    have h := retryGo_all_fail att 0 retries (fun i _ h2 => hall i (by omega))
    simpa using h

/-- Witness for C6: with one failing attempt followed by a success and a
budget of 2 retries, exactly 2 calls are made and the success is
returned. -/
theorem download_retry_spec_witness :
    download_image_with_retry attFixture 2 = (attFixture 1, 1 + 1) :=
  (download_retry_spec attFixture 2).2.2.1 1 (by decide)
    (fun i hi => by
      have hz : i = 0 := by omega
      subst hz
      rfl)
    (by decide)

/-- C9.  With a negative `retries` (a representable configuration, since
`Config.retries` is a plain `int`), the loop `for _ in range(retries + 1)`
never executes its body, and the trailing `return key, None, err` reads the
never-assigned locals, raising `NameError`; for `retries ≥ 0` the call
returns the `(stream, error)` pair of the Nat-indexed model. -/
theorem negative_retries_name_error (att : Nat → DLResult) (retries : Int) :
    (retries < 0 → download_image_with_retry_int att retries = PyRet.nameError) ∧
    (0 ≤ retries → download_image_with_retry_int att retries =
      PyRet.ok (download_image_with_retry att retries.toNat).1
        (download_image_with_retry att retries.toNat).2) := by
  constructor
  · intro h
    rw [download_image_with_retry_int]
    have hz : (retries + 1).toNat = 0 := by omega
    rw [hz]
  · intro h
    rw [download_image_with_retry_int]
    have hz : (retries + 1).toNat = retries.toNat + 1 := by omega
    rw [hz]
    rfl

/-- Witness for C9 at `retries = -1`. -/
theorem negative_retries_name_error_witness :
    download_image_with_retry_int (fun _ => ⟨none, some "err"⟩) (-1) =
      PyRet.nameError :=
  (negative_retries_name_error (fun _ => ⟨none, some "err"⟩) (-1)).1 (by decide)

lemma saveDir_ge_current (thrGB : Nat) (s : StorageState) :
    s.current ≤ saveDir thrGB s := by
  rw [saveDir]
  by_cases h : checkBatchSize thrGB s <;> simp [h]

lemma saveImage_current (thrGB : Nat) (s : StorageState) (sz : Nat) :
    (saveImage thrGB s sz).current = saveDir thrGB s := rfl

lemma stepOp_current_mono (thrGB : Nat) (s : StorageState) (op : StorageOp) :
    s.current ≤ (stepOp thrGB s op).current := by
  cases op with
  | save sz => exact saveDir_ge_current thrGB s
  | remove d amt => exact le_refl _

lemma saveImage_inv (thrGB : Nat) (s : StorageState) (sz : Nat)
    (h : InvStore s) : InvStore (saveImage thrGB s sz) := by
  intro d hd
  rw [saveImage] at hd ⊢
  simp only at hd ⊢
  have hgt : saveDir thrGB s < d := hd
  have hcur : s.current < d := lt_of_le_of_lt (saveDir_ge_current thrGB s) hgt
  have hne : d ≠ saveDir thrGB s := Nat.ne_of_gt hgt
  simp [hne, h d hcur]

lemma stepOp_inv (thrGB : Nat) (s : StorageState) (op : StorageOp)
    (h : InvStore s) : InvStore (stepOp thrGB s op) := by
  cases op with
  | save sz => exact saveImage_inv thrGB s sz h
  | remove d amt =>
      intro x hx
      simp only [stepOp]
      by_cases hxd : x = d
      · simp [hxd, h x hx, hxd ▸ h x hx]
      · simp [hxd, h x hx]

lemma writtenDirs_lower_bound (thrGB : Nat) (ops : List StorageOp) :
    ∀ s w, w ∈ writtenDirs thrGB s ops → s.current ≤ w := by
  induction ops with
  | nil => intro s w hw; simp [writtenDirs] at hw
  | cons op rest ih =>
      intro s w hw
      cases op with
      | save sz =>
          rw [writtenDirs] at hw
          rcases List.mem_cons.mp hw with heq | hmem
          · subst heq
            exact saveDir_ge_current thrGB s
          · have h1 := ih (stepOp thrGB s (StorageOp.save sz)) w hmem
            exact le_trans (stepOp_current_mono thrGB s _) h1
      | remove d amt =>
          rw [writtenDirs] at hw
          have h1 := ih (stepOp thrGB s (StorageOp.remove d amt)) w hw
          exact le_trans (stepOp_current_mono thrGB s _) h1

lemma writtenDirs_chain (thrGB : Nat) (ops : List StorageOp) :
    ∀ s, List.Chain' (· ≤ ·) (writtenDirs thrGB s ops) := by
  induction ops with
  | nil => intro s; simp [writtenDirs]
  | cons op rest ih =>
      intro s
      cases op with
      | save sz =>
          rw [writtenDirs]
          refine List.chain'_cons'.mpr ⟨?_, ih _⟩
          intro y hy
          have hmem : y ∈ writtenDirs thrGB (stepOp thrGB s (StorageOp.save sz)) rest :=
            List.mem_of_mem_head? hy
          have hb := writtenDirs_lower_bound thrGB rest _ y hmem
          exact hb
      | remove d amt =>
          rw [writtenDirs]
          exact ih _

lemma filterMapIf {α β : Type} (p : α → Bool) (f : α → β) (l : List α) :
    l.filterMap (fun x => if p x then some (f x) else none) = (l.filter p).map f := by
  induction l with
  | nil => rfl
  | cons a rest ih =>
      by_cases h : p a
      · rw [List.filterMap_cons, List.filter_cons, if_pos h, if_pos h, List.map_cons, ih]
      · rw [List.filterMap_cons, List.filter_cons, if_neg h, if_neg h, ih]

lemma existing_batches_eq (entries : List DirEntry) :
    entries.filterMap
        (fun e => if e.isDir && pyIsDigit e.name then some (strToNat e.name) else none)
      = numericSubdirValues entries := by
  have hpred : (fun e : DirEntry => e.isDir && pyIsDigit e.name)
      = (fun e : DirEntry =>
          e.isDir && !e.name.data.isEmpty && e.name.data.all Char.isDigit) := by
    funext e
    simp [pyIsDigit, Bool.and_assoc]
  rw [filterMapIf (fun e : DirEntry => e.isDir && pyIsDigit e.name)
      (fun e => strToNat e.name) entries, hpred]
  rfl

/-- C2 (amended: positive threshold).  With `batch_size_gb ≥ 1` and the
single-run invariant that directories beyond the current batch are empty,
every `save_image` call writes into a directory whose size at write-start
is strictly below `batch_size_gb * 2^30` bytes — the size check and
possible rotation precede the write — and the invariant is preserved. -/
theorem save_respects_threshold (thrGB : Nat) (s : StorageState) (sz : Nat)
    (h1 : 1 ≤ thrGB) (h2 : InvStore s) :
    s.fs (saveDir thrGB s) < thrGB * 2 ^ 30 ∧ InvStore (saveImage thrGB s sz) := by
  refine ⟨?_, saveImage_inv thrGB s sz h2⟩
  rw [saveDir]
  by_cases h : checkBatchSize thrGB s
  · rw [if_pos h, h2 (s.current + 1) (by omega)]
    have hp : (0 : Nat) < 2 ^ 30 := by positivity
    exact Nat.mul_pos h1 hp
  · rw [if_neg h]
    rw [checkBatchSize, decide_eq_true_eq] at h
    omega

/-- Witness for C2's amended theorem: a freshly initialised store over an
empty output directory, threshold 1 GB. -/
theorem save_respects_threshold_witness :
    (initStorage []).fs (saveDir 1 (initStorage [])) < 1 * 2 ^ 30 ∧
      InvStore (saveImage 1 (initStorage []) 5) :=
  save_respects_threshold 1 (initStorage []) 5 (by decide) (fun _ _ => rfl)

/-- Counterexample to C2 as stated: with the representable configuration
`batch_size_gb = 0`, a `save_image` on a fresh store rotates into directory
2, whose size at write-start (0 bytes) is not strictly below the threshold
`0 * 2^30 = 0`. -/
theorem save_threshold_counterexample :
    saveDir 0 (initStorage []) = 2 ∧
      ¬ ((initStorage []).fs (saveDir 0 (initStorage [])) < 0 * 2 ^ 30) := by
  constructor
  · rfl
  · decide

/-- C5 (amended).  Within one run, once the store has rotated past a batch
directory (its number is below the current batch number), no subsequent
`save_image` writes into it, whatever later saves and external file
removals do to directory sizes.  The claim's stronger reading — a
directory is closed from the moment its size crosses the threshold — fails
because `_check_batch_size` recomputes the size on every call instead of
latching: see the counterexample. -/
theorem batch_never_reopened (thrGB : Nat) (s : StorageState)
    (ops : List StorageOp) (d : Nat) (h : d < s.current) :
    ∀ w ∈ writtenDirs thrGB s ops, d < w :=
  fun w hw => lt_of_lt_of_le h (writtenDirs_lower_bound thrGB ops s w hw)

/-- Witness for C5's amended theorem on a concrete run. -/
theorem batch_never_reopened_witness :
    (3 ∈ writtenDirs 1 ⟨3, fun _ => 0⟩ [StorageOp.save 5]) ∧ 2 < 3 :=
  ⟨by decide,
    batch_never_reopened 1 ⟨3, fun _ => 0⟩ [StorageOp.save 5] 2 (by decide) 3
      (by decide)⟩

/-- Counterexample to C5 as stated: threshold 1 GB, fresh store.  The
first save fills directory 1 to exactly `2^30` bytes (≥ threshold, so the
directory has crossed the threshold); files are then removed externally;
the next save's recomputed size check passes and it writes into directory
1 again. -/
theorem batch_reopen_counterexample :
    1 * 2 ^ 30 ≤ (stepOp 1 (initStorage []) (StorageOp.save (2 ^ 30))).fs 1 ∧
    writtenDirs 1 (initStorage [])
        [StorageOp.save (2 ^ 30), StorageOp.remove 1 (2 ^ 30), StorageOp.save 5]
      = [1, 1] := by
  constructor
  · decide
  · decide

/-- C7.  `Storage.__init__` sets the current batch number to
`max(existing) + 1` over the purely numeric immediate subdirectory names
of the output directory (`1` when none exist); within one run the written
batch numbers are non-decreasing, and every save writes into a directory
number at least the one computed at initialisation. -/
theorem batch_numbering (entries : List DirEntry) (thrGB : Nat)
    (ops : List StorageOp) :
    (initStorage entries).current =
      (if numericSubdirValues entries = [] then 1
       else (numericSubdirValues entries).foldl max 0 + 1) ∧
    List.Chain' (· ≤ ·) (writtenDirs thrGB (initStorage entries) ops) ∧
    (∀ w ∈ writtenDirs thrGB (initStorage entries) ops,
      (initStorage entries).current ≤ w) := by
  refine ⟨?_, writtenDirs_chain thrGB ops _, ?_⟩
  · rw [initStorage]
    simp only [get_next_batch_number, existing_batches_eq entries]
    by_cases h : numericSubdirValues entries = []
    · simp [h]
    · simp [h, List.isEmpty_iff]
  · intro w hw
    exact writtenDirs_lower_bound thrGB ops _ w hw

/-- Witness for C7: output directory holding one numeric subdirectory
`000003`, so the run starts at batch 4 and its first save writes
directory 4. -/
theorem batch_numbering_witness :
    (4 ∈ writtenDirs 10 (initStorage [⟨"000003", true, 7⟩]) [StorageOp.save 5]) ∧
      (initStorage [⟨"000003", true, 7⟩]).current ≤ 4 :=
  ⟨by decide,
    (batch_numbering [⟨"000003", true, 7⟩] 10 [StorageOp.save 5]).2.2 4 (by decide)⟩

/-- C8.  The extension heuristic strips the query string, takes the
lowercased path extension, and returns it when it is one of
`.jpg .jpeg .png .gif .webp .bmp`, else `.jpg`; in particular
`https://x.com/a.PNG?x=1 → .png`, `https://x.com/a → .jpg` and
`https://x.com/a.tiff → .jpg`. -/
theorem get_file_extension_spec :
    (∀ url, get_file_extension url =
      (if pathExtensionLower url ∈ allowedExts then pathExtensionLower url
       else ".jpg")) ∧
    get_file_extension "https://x.com/a.PNG?x=1" = ".png" ∧
    get_file_extension "https://x.com/a" = ".jpg" ∧
    get_file_extension "https://x.com/a.tiff" = ".jpg" := by
  refine ⟨?_, by decide, by decide, by decide⟩
  intro url
  by_cases h : pathExtensionLower url ∈ allowedExts
  · have hne : pathExtensionLower url ≠ "" := by
      intro hc
      rw [hc] at h
      exact absurd h (by decide)
    rw [if_pos h]
    simp only [pathExtensionLower] at h hne
    simp [get_file_extension, pathExtensionLower, h, hne]
  · rw [if_neg h]
    simp only [pathExtensionLower] at h
    simp [get_file_extension, h]

lemma lastIdx_eq_none (c : Char) (l : List Char) (h : c ∉ l) :
    lastIdx c l = none := by
  induction l with
  | nil => rfl
  | cons x rest ih =>
      have hx : x ≠ c := fun hxc => h (hxc ▸ List.mem_cons_self x rest)
      have hr : c ∉ rest := fun hm => h (List.mem_cons_of_mem x hm)
      rw [lastIdx, ih hr]
      simp [hx]

lemma lastIdx_append_last (l1 l2 : List Char) (c : Char) (h : c ∉ l2) :
    lastIdx c (l1 ++ c :: l2) = some l1.length := by
  induction l1 with
  | nil =>
      rw [List.nil_append, lastIdx, lastIdx_eq_none c l2 h]
      simp
  | cons x rest ih =>
      rw [List.cons_append, lastIdx, ih]
      simp

lemma safeKeyL_no_sep (k : List Char) :
    ∀ c ∈ safeKeyL k, c ≠ '/' ∧ c ≠ '\\' := by
  intro c hc
  rw [safeKeyL] at hc
  rcases List.mem_map.mp hc with ⟨c0, _, hmap⟩
  by_cases h0 : c0 = '/' ∨ c0 = '\\'
  · rw [if_pos h0] at hmap
    subst hmap
    exact ⟨by decide, by decide⟩
  · rw [if_neg h0] at hmap
    subst hmap
    push_neg at h0
    exact h0

lemma rstripSlash_no_trailing (l : List Char) (h : l.getLast? ≠ some '/') :
    rstripSlash (l ++ ['/']) = l := by
  rw [rstripSlash, List.reverse_append]
  simp only [List.reverse_cons, List.reverse_nil, List.nil_append, List.singleton_append,
    List.dropWhile_cons]
  have hhead : List.dropWhile (fun c => c == '/') l.reverse = l.reverse := by
    cases hrev : l.reverse with
    | nil => rfl
    | cons y ys =>
        have hy : y ≠ '/' := by
          intro hy
          apply h
          have h2 : l.reverse.head? = some '/' := by
            rw [hrev, hy]
            rfl
          rwa [List.head?_reverse] at h2
        rw [List.dropWhile_cons]
        simp [hy]
  simp [hhead]

/-- C10 (amended: separator-free extension).  For every key, and every
extension containing no `'/'`, the path returned by `save_image` has the
batch directory (nonempty, no trailing slash) as its immediate parent, and
the sanitised key contains no path separator at all. -/
theorem save_image_path_parent (batchDir key extension : String)
    (hbd0 : batchDir ≠ "") (hbd1 : batchDir.data.getLast? ≠ some '/')
    (hext : '/' ∉ extension.data) :
    dirnameP (save_image_path batchDir key extension) = batchDir ∧
      (∀ c ∈ safeKeyL key.data, c ≠ '/' ∧ c ≠ '\\') := by
  refine ⟨?_, safeKeyL_no_sep key.data⟩
  have hfn : '/' ∉ safeKeyL key.data ++ extension.data := by
    intro hmem
    rcases List.mem_append.mp hmem with hk | he
    · exact (safeKeyL_no_sep key.data '/' hk).1 rfl
    · exact hext he
  have hjoin : save_image_path batchDir key extension =
      ⟨batchDir.data ++ '/' :: (safeKeyL key.data ++ extension.data)⟩ := by
    rw [save_image_path, posixJoin]
    have hh : (⟨safeKeyL key.data ++ extension.data⟩ : String).data.head? ≠ some '/' := by
      intro hhead
      cases hfn2 : safeKeyL key.data ++ extension.data with
      | nil => rw [hfn2] at hhead; exact Option.noConfusion hhead
      | cons c rest =>
          rw [hfn2] at hhead
          have : c = '/' := by
            have := hhead
            simp at this
            exact this
          apply hfn
          rw [hfn2, this]
          exact List.mem_cons_self _ _
    rw [if_neg hh, if_neg hbd0, if_neg hbd1]
    apply String.ext
    have hdata : (batchDir ++ "/" ++ (⟨safeKeyL key.data ++ extension.data⟩ : String)).data
        = (batchDir.data ++ ['/']) ++ (safeKeyL key.data ++ extension.data) := rfl
    rw [hdata, List.append_assoc]
    rfl
  rw [hjoin, dirnameP]
  have hrf : rfind (batchDir.data ++ '/' :: (safeKeyL key.data ++ extension.data)) '/'
      = (batchDir.data.length : Int) := by
    rw [rfind, lastIdx_append_last _ _ _ hfn]
  simp only [hrf]
  have hi : ((batchDir.data.length : Int) + 1).toNat = batchDir.data.length + 1 := by
    omega
  rw [hi]
  have htake : (batchDir.data ++ '/' :: (safeKeyL key.data ++ extension.data)).take
      (batchDir.data.length + 1) = batchDir.data ++ ['/'] := by
    rw [show batchDir.data ++ '/' :: (safeKeyL key.data ++ extension.data)
        = (batchDir.data ++ ['/']) ++ (safeKeyL key.data ++ extension.data) by simp]
    rw [List.take_append_of_le_length (by simp)]
    rw [List.take_of_length_le (by simp)]
  rw [htake]
  have hne : (batchDir.data ++ ['/']).isEmpty = false := by
    simp [List.isEmpty_iff]
  have hlast : batchDir.data ≠ [] := fun hnil => hbd0 (String.ext hnil)
  have hnotall : (batchDir.data ++ ['/']).all (fun c => c == '/') = false := by
    rcases List.exists_cons_of_ne_nil hlast with ⟨b0, bs, hbd⟩
    have hlastchar : (b0 :: bs).getLast? ≠ some '/' := by
      rw [← hbd]
      exact hbd1
    have hex : ∃ c ∈ batchDir.data ++ ['/'], ¬ ((fun c => c == '/') c = true) := by
      refine ⟨(b0 :: bs).getLast (List.cons_ne_nil b0 bs), ?_, ?_⟩
      · rw [hbd]
        exact List.mem_append_left _ (List.getLast_mem _)
      · intro hc
        apply hlastchar
        rw [List.getLast?_eq_getLast _ (List.cons_ne_nil b0 bs)]
        simpa using hc
    rcases hex with ⟨c, hcm, hcp⟩
    exact List.all_eq_false.mpr ⟨c, hcm, by simpa using hcp⟩
  rw [hne, hnotall]
  simp only [Bool.not_false, Bool.and_self, if_pos]
  exact String.ext (rstripSlash_no_trailing batchDir.data hbd1)

/-- Witness for C10's amended theorem at a concrete key containing a
separator. -/
theorem save_image_path_parent_witness :
    dirnameP (save_image_path "/out/000001" "a/b" ".jpg") = "/out/000001" ∧
      (∀ c ∈ safeKeyL "a/b".data, c ≠ '/' ∧ c ≠ '\\') :=
  save_image_path_parent "/out/000001" "a/b" ".jpg" (by decide) (by decide)
    (by decide)

/-- Counterexample to C10 as stated: with an extension containing a path
separator (the claim quantifies over every extension), the returned path's
immediate parent is no longer the batch directory. -/
theorem save_image_path_escape_counterexample :
    dirnameP (save_image_path "/out/000001" "0" "/x") = "/out/000001/0" ∧
      dirnameP (save_image_path "/out/000001" "0" "/x") ≠ "/out/000001" := by
  constructor
  · decide
  · decide

/-- C4 (amended).  `mark_as_processing` fails (with the `FileNotFoundError`
that surfaces the lost race) exactly when the source no longer exists;
when the source exists it renames it to its `_processing` form and returns
the new path — silently replacing the target if one already existed,
rather than failing; and in a race of two actors on the same source, the
first renamer succeeds and removes the source, so the second's call
errors. -/
theorem mark_as_processing_race (fs : List FsFile) (src : String) :
    (fs.find? (fun f => f.path == src) = none →
      mark_as_processing fs src = Except.error OsError.fileNotFound) ∧
    (∀ f, fs.find? (fun f => f.path == src) = some f →
      mark_as_processing fs src =
        Except.ok (⟨processingName src, f.content⟩ ::
          fs.filter (fun g => g.path != src && g.path != processingName src),
          processingName src)) ∧
    (∀ f fs', processingName src ≠ src →
      fs.find? (fun g => g.path == src) = some f →
      mark_as_processing fs src = Except.ok (fs', processingName src) →
      mark_as_processing fs' src = Except.error OsError.fileNotFound) := by
  refine ⟨?_, ?_, ?_⟩
  · intro h
    rw [mark_as_processing, renamePosix, h]
  · intro f h
    rw [mark_as_processing, renamePosix, h]
  · intro f fs' hneq hfind hok
    have hfs' : fs' = ⟨processingName src, f.content⟩ ::
        fs.filter (fun g => g.path != src && g.path != processingName src) := by
      rw [mark_as_processing, renamePosix, hfind] at hok
      injection hok with h1
      exact (congrArg Prod.fst h1).symm
    subst hfs'
    rw [mark_as_processing, renamePosix]
    have hnone : (FsFile.mk (processingName src) f.content ::
        fs.filter (fun g => g.path != src && g.path != processingName src)).find?
          (fun g => g.path == src) = none := by
      apply List.find?_eq_none.mpr
      intro g hg
      rcases List.mem_cons.mp hg with hhd | htl
      · subst hhd
        simp [hneq]
      · have hcond := (List.mem_filter.mp htl).2
        simp only [Bool.and_eq_true, bne_iff_ne, ne_eq] at hcond
        simp only [beq_iff_eq]
        exact hcond.1
    rw [hnone]

/-- Witness for C4's amended theorem: a successful rename of `a.parquet`,
then a second actor's attempt on the now-missing source failing. -/
theorem mark_as_processing_race_witness :
    mark_as_processing [(⟨"a.parquet", 10⟩ : FsFile)] "a.parquet" =
      Except.ok ([⟨"a_processing.parquet", 10⟩], "a_processing.parquet") ∧
    mark_as_processing [(⟨"a_processing.parquet", 10⟩ : FsFile)] "a.parquet" =
      Except.error OsError.fileNotFound := by
  constructor
  · have h := (mark_as_processing_race [(⟨"a.parquet", 10⟩ : FsFile)] "a.parquet").2.1
      ⟨"a.parquet", 10⟩ (by decide)
    rw [h]
    rfl
  · exact (mark_as_processing_race [(⟨"a_processing.parquet", 10⟩ : FsFile)]
      "a.parquet").1 (by decide)

/-- Counterexample to C4 as stated: when the rename target
`a_processing.parquet` already exists (content 2) alongside the source
(content 1), the claim demands a failure, but POSIX rename succeeds and
silently replaces the target with the source's content. -/
theorem mark_as_processing_clobber_counterexample :
    mark_as_processing
        [(⟨"a.parquet", 1⟩ : FsFile), ⟨"a_processing.parquet", 2⟩] "a.parquet" =
      Except.ok ([⟨"a_processing.parquet", 1⟩], "a_processing.parquet") := by
  rfl

end DatasetDownloader
